import Mathlib

set_option maxRecDepth 2000

/-!
Verification of the multi-source pattern-synthesis pipeline of the
brevard-bidder-ai-skills repository.

The definitions below are a shallow embedding of
`scripts/core/orchestrator.py` (`SkillsOrchestrator.synthesize_analyses`)
and `scripts/utils/supabase_client.py` (`get_system_overview`,
`get_underperforming_skills`).  JSON numbers are modelled as rationals,
JSON strings as `String`, optional JSON fields as `Option`; a Python dict
keyed by strings and iterated in insertion order is modelled as an
association list updated in place.
-/

/-- Python `max(a, b)` on two numbers. -/
def pymax (a b : ℚ) : ℚ :=
  if a ≤ b then b else a

/-- Python `min(a, b)` on two numbers. -/
def pymin (a b : ℚ) : ℚ :=
  if a ≤ b then a else b

/-- Python `name.lower().replace(' ', '_')`: every space becomes an
underscore and every other character is lowercased (per character, which
agrees with `str.lower` on the ASCII names in play). -/
def normalizeName (s : String) : String :=
  String.mk (s.data.map (fun c => if c = ' ' then '_' else c.toLower))

/-- One pattern proposal as found in a source's `patterns_identified`
list.  Every field is optional because the Python code reads each one
with `pattern.get(...)` and a default. -/
structure PatternProposal where
  pattern_id : Option String
  name : Option String
  category : Option String
  frequency : Option ℚ
  consistency_score : Option ℚ
  skill_viability : Option ℚ
  task_references : Option (List String)
deriving DecidableEq, Repr

/-- A proposal with every field absent; concrete proposals are built by
structure update from it. -/
def proposal0 : PatternProposal :=
  ⟨none, none, none, none, none, none, none⟩

/-- The merge key of a proposal, embedding
`pattern.get('pattern_id') or pattern.get('name', '').lower().replace(' ', '_')`
(orchestrator.py line 260).  Python `or` falls through on a falsy left
operand, so a missing `pattern_id` and an empty-string `pattern_id` both
fall back to the normalized name. -/
def patternKey (p : PatternProposal) : String :=
  match p.pattern_id with
  | some pid => if pid = "" then normalizeName (p.name.getD "") else pid
  | none => normalizeName (p.name.getD "")

/-- The merged record stored in the `all_patterns` dict
(orchestrator.py lines 262-271). -/
structure MergedPattern where
  pattern_id : String
  name : String
  category : String
  frequency : ℚ
  consistency_score : ℚ
  skill_viability : ℚ
  task_references : List String
  models_identified : List String
deriving DecidableEq, Repr

/-- Python `list(set(l))`: duplicates removed (we keep first occurrences
as the deterministic representative of the unordered Python set). -/
def pyListSet (l : List String) : List String :=
  l.dedup

/-- `list(set(existing['task_references'] + pattern.get('task_references', [])))`
(orchestrator.py line 278). -/
def refUnion (a b : List String) : List String :=
  pyListSet (a ++ b)

/-- First occurrence of a key seeds the merged record
(orchestrator.py lines 262-271). -/
def seedPattern (model : String) (p : PatternProposal) : MergedPattern :=
  let pid := patternKey p
  { pattern_id := pid
    name := p.name.getD pid
    category := p.category.getD "general"
    frequency := p.frequency.getD 1
    consistency_score := p.consistency_score.getD 5
    skill_viability := p.skill_viability.getD 5
    task_references := p.task_references.getD []
    models_identified := [model] }

/-- A subsequent occurrence of the same key updates the merged record:
scores become the max of old and new, task references are unioned as a
set, and the contributing model is appended
(orchestrator.py lines 273-279). -/
def mergeInto (existing : MergedPattern) (model : String) (p : PatternProposal) : MergedPattern :=
  { existing with
    frequency := pymax existing.frequency (p.frequency.getD 1)
    consistency_score := pymax existing.consistency_score (p.consistency_score.getD 5)
    skill_viability := pymax existing.skill_viability (p.skill_viability.getD 5)
    task_references := refUnion existing.task_references (p.task_references.getD [])
    models_identified := existing.models_identified ++ [model] }

/-- `all_patterns[pid] = ...` on a Python dict: update the entry in place
if the key is present, otherwise append a fresh entry at the end
(insertion order preserved). -/
def insertProposal (model : String) (p : PatternProposal) :
    List (String × MergedPattern) → List (String × MergedPattern)
  | [] => [(patternKey p, seedPattern model p)]
  | (k, m) :: rest =>
    if k = patternKey p then (k, mergeInto m model p) :: rest
    else (k, m) :: insertProposal model p rest

/-- One source's parsed analysis document (the fields the synthesis loop
reads). -/
structure Analysis where
  patterns_identified : List PatternProposal
deriving DecidableEq, Repr

/-- The stream of (model, proposal) pairs visited by the nested loops
`for model, analysis in analyses.items(): for pattern in
analysis.get('patterns_identified', [])` (orchestrator.py lines 258-259). -/
def contributions (analyses : List (String × Analysis)) : List (String × PatternProposal) :=
  analyses.flatMap (fun ma => ma.2.patterns_identified.map (fun p => (ma.1, p)))

/-- One step of the merge loop, as a fold step over the contribution
stream. -/
def mergeStep (acc : List (String × MergedPattern)) (c : String × PatternProposal) :
    List (String × MergedPattern) :=
  insertProposal c.1 c.2 acc

/-- Folding the contribution stream through the dict-update step. -/
def mergeContribs (cs : List (String × PatternProposal)) : List (String × MergedPattern) :=
  cs.foldl mergeStep []

/-- The `all_patterns` dict after the merge loop
(orchestrator.py lines 257-279). -/
def mergeAllPatterns (analyses : List (String × Analysis)) : List (String × MergedPattern) :=
  mergeContribs (contributions analyses)

/-- The confidence boost (orchestrator.py lines 281-287):
`if model_count >= 2: v = min(10, v + 0.5)` and then
`if model_count >= 3: v = min(10, v + 0.5)`. -/
def boostPattern (m : MergedPattern) : MergedPattern :=
  let model_count := m.models_identified.length
  let v1 := if 2 ≤ model_count then pymin 10 (m.skill_viability + 1/2) else m.skill_viability
  let v2 := if 3 ≤ model_count then pymin 10 (v1 + 1/2) else v1
  { m with skill_viability := v2 }

/-- Boost every merged pattern (the dict's values, in insertion order). -/
def boostAll (merged : List (String × MergedPattern)) : List (String × MergedPattern) :=
  merged.map (fun e => (e.1, boostPattern e.2))

/-- The viability gate (orchestrator.py lines 290-294): walk the dict
values and append a pattern to `viable_patterns` when
`pattern['skill_viability'] >= self.min_skill_viability`. -/
def collectViable (min_skill_viability : ℚ) (patterns : List MergedPattern) : List MergedPattern :=
  patterns.foldl
    (fun acc p => if p.skill_viability ≥ min_skill_viability then acc ++ [p] else acc) []

/-- The `analyses` dict retained after parsing: sources whose document
failed to parse (modelled as `none`) are dropped with a warning
(orchestrator.py lines 234-250). -/
def collectParsed (parsed : List (String × Option Analysis)) : List (String × Analysis) :=
  parsed.filterMap (fun ma => ma.2.map (fun a => (ma.1, a)))

/-- The pattern half of `synthesize_analyses`: keep the sources that
parsed; if none did, return the empty result (`return {}`,
orchestrator.py lines 252-254); otherwise merge, boost, and gate.  The
result pairs the full merged dict with the viable list. -/
def synthesizePatterns (min_skill_viability : ℚ) (parsed : List (String × Option Analysis)) :
    Option (List (String × MergedPattern) × List MergedPattern) :=
  let analyses := collectParsed parsed
  if analyses.isEmpty then none
  else
    let merged := boostAll (mergeAllPatterns analyses)
    some (merged, collectViable min_skill_viability (merged.map Prod.snd))

/-- Outcome of looking for one response file: `none` when the file does
not exist; `some none` when it exists but its content fails to parse as
JSON (after fenced-block extraction for Markdown); `some (some a)` when
it parses to analysis `a`. -/
def FileOutcome := Option (Option Analysis)

/-- The per-source response files `analysis_<model>.json` and
`analysis_<model>.md` in the responses directory
(orchestrator.py lines 235-237). -/
structure ResponseFiles where
  jsonFile : FileOutcome
  mdFile : FileOutcome

/-- One iteration of `for ext in ['.json', '.md']`
(orchestrator.py lines 236-250): a file that exists and parses
overwrites `analyses[model]`; a missing or unparsable file leaves it
unchanged. -/
def loadExt (cur : Option Analysis) (file : FileOutcome) : Option Analysis :=
  match file with
  | none => cur
  | some none => cur
  | some (some a) => some a

/-- The value of `analyses[model]` after the extension loop: the `.json`
file is tried first, then the `.md` file. -/
def loadModelAnalysis (files : ResponseFiles) : Option Analysis :=
  loadExt (loadExt none files.jsonFile) files.mdFile

/-- One row of the `ai_skills` table, restricted to the fields the
metrics code reads. -/
structure SkillRow where
  total_uses : ℕ
  success_rate : ℚ
  avg_time_saved : ℚ
deriving DecidableEq, Repr

/-- Python `round(q, 3)`: round to 3 decimal places, ties to even
(banker's rounding). -/
def pyRound3 (q : ℚ) : ℚ :=
  let s := q * 1000
  let f : ℤ := ⌊s⌋
  let r : ℚ := s - f
  let n : ℤ := if r < 1/2 then f else if 1/2 < r then f + 1 else if f % 2 = 0 then f else f + 1
  (n : ℚ) / 1000

/-- The `avg_success_rate` entry of `get_system_overview`
(supabase_client.py lines 348-351 and 359):
`sum(s.get('success_rate', 0) for s in skill_data) / len(skill_data) if
skill_data else 0`, then `round(-, 3)`.  The denominator is the number of
ALL skill rows. -/
def avg_success_rate (skill_data : List SkillRow) : ℚ :=
  pyRound3
    (if skill_data.isEmpty then 0
     else ((skill_data.map SkillRow.success_rate).sum) / (skill_data.length : ℚ))

/-- The average success rate as the spec describes it: the mean of
per-skill success rates taken only over skills with at least one
recorded use (0 when there are none).  Stated from the spec's words for
comparison with `avg_success_rate`. -/
def specAvgSuccessRate (skill_data : List SkillRow) : ℚ :=
  let used := skill_data.filter (fun r => decide (1 ≤ r.total_uses))
  if used.isEmpty then 0 else ((used.map SkillRow.success_rate).sum) / (used.length : ℚ)

/-- `get_underperforming_skills` (supabase_client.py lines 216-226): the
query filters `total_uses >= min_uses` and `success_rate <
max_success_rate`; the `max_rating` parameter is accepted but never used
in the query. -/
def get_underperforming_skills (skill_data : List SkillRow) (min_uses : ℕ)
    (max_success_rate : ℚ) (max_rating : ℚ) : List SkillRow :=
  skill_data.filter
    (fun r => decide (min_uses ≤ r.total_uses) && decide (r.success_rate < max_success_rate))

/-- The two-source input of the spec's literal test: source A reports
pattern "X" with viability 6.0, source B reports "X" with 6.5. -/
def twoSourceInput : List (String × Analysis) :=
  [("A", ⟨[{ proposal0 with name := some "X", skill_viability := some 6 }]⟩),
   ("B", ⟨[{ proposal0 with name := some "X", skill_viability := some (13/2) }]⟩)]

/-- The merged record for key "x" produced from `twoSourceInput` before
boosting. -/
def mX2 : MergedPattern :=
  ⟨"x", "X", "general", 1, 5, 13/2, [], ["A", "B"]⟩

/-- The merged record for key "x" produced from `twoSourceInput` after
the 2-source boost. -/
def mX2boosted : MergedPattern :=
  ⟨"x", "X", "general", 1, 5, 7, [], ["A", "B"]⟩

/-- The three-source end-to-end input: each source proposes `p_auth`
with viability 6, 7 and 8 respectively. -/
def threeSourceInput : List (String × Option Analysis) :=
  [("claude", some ⟨[{ proposal0 with pattern_id := some "p_auth", skill_viability := some 6 }]⟩),
   ("gemini", some ⟨[{ proposal0 with pattern_id := some "p_auth", skill_viability := some 7 }]⟩),
   ("gpt", some ⟨[{ proposal0 with pattern_id := some "p_auth", skill_viability := some 8 }]⟩)]

/-- A merged pattern sitting exactly at the default threshold 7.0. -/
def gateAt7 : MergedPattern :=
  ⟨"p_at7", "At 7", "general", 1, 5, 7, [], ["claude"]⟩

/-- A merged pattern with viability 6.999, strictly below 7.0 (the
value is written `mkRat` so that it evaluates by kernel reduction). -/
def gateBelow7 : MergedPattern :=
  ⟨"p_below7", "Below 7", "general", 1, 5, mkRat 6999 1000, [], ["claude"]⟩

/-- A proposal whose `pattern_id` field is present but the empty string. -/
def emptyIdProposal : PatternProposal :=
  { proposal0 with pattern_id := some "", name := some "My Pattern" }

/-- A parsed analysis standing for the content of a `.json` response
file. -/
def analysisFromJson : Analysis :=
  ⟨[{ proposal0 with name := some "from json" }]⟩

/-- A parsed analysis standing for the content of a `.md` response file,
different from `analysisFromJson`. -/
def analysisFromMd : Analysis :=
  ⟨[]⟩

/-- The boosted merged record produced from `threeSourceInput`. -/
def mAuth9 : MergedPattern :=
  ⟨"p_auth", "p_auth", "general", 1, 5, 9, [], ["claude", "gemini", "gpt"]⟩

theorem pymax_eq_max (a b : ℚ) : pymax a b = max a b := by
  by_cases h : a ≤ b
  · rw [pymax, if_pos h, max_eq_right h]
  · rw [pymax, if_neg h, max_eq_left (le_of_not_le h)]

theorem pymin_eq_min (a b : ℚ) : pymin a b = min a b := by
  by_cases h : a ≤ b
  · rw [pymin, if_pos h, min_eq_left h]
  · rw [pymin, if_neg h, min_eq_right (le_of_not_le h)]

theorem seedPattern_viab (model : String) (p : PatternProposal) :
    (seedPattern model p).skill_viability = p.skill_viability.getD 5 := rfl

theorem mergeInto_viab (ex : MergedPattern) (model : String) (p : PatternProposal) :
    (mergeInto ex model p).skill_viability =
      pymax ex.skill_viability (p.skill_viability.getD 5) := rfl

theorem boostPattern_viab (m : MergedPattern) :
    (boostPattern m).skill_viability =
      (if 3 ≤ m.models_identified.length then
        pymin 10
          ((if 2 ≤ m.models_identified.length then pymin 10 (m.skill_viability + 1/2)
            else m.skill_viability) + 1/2)
       else if 2 ≤ m.models_identified.length then pymin 10 (m.skill_viability + 1/2)
       else m.skill_viability) := rfl

theorem insertProposal_cons_pos {k : String} {m : MergedPattern} (model : String)
    (p : PatternProposal) (tl : List (String × MergedPattern)) (hk : k = patternKey p) :
    insertProposal model p ((k, m) :: tl) = (k, mergeInto m model p) :: tl := by
  simp [insertProposal, hk]

theorem insertProposal_cons_neg {k : String} {m : MergedPattern} (model : String)
    (p : PatternProposal) (tl : List (String × MergedPattern)) (hk : ¬ k = patternKey p) :
    insertProposal model p ((k, m) :: tl) = (k, m) :: insertProposal model p tl := by
  simp [insertProposal, hk]

theorem insertProposal_ub {B : ℚ} (model : String) (p : PatternProposal)
    (hp : p.skill_viability.getD 5 ≤ B) :
    ∀ (acc : List (String × MergedPattern)),
      (∀ e ∈ acc, e.2.skill_viability ≤ B) →
      ∀ e ∈ insertProposal model p acc, e.2.skill_viability ≤ B := by
  intro acc
  induction acc with
  | nil =>
    intro _ e he
    simp only [insertProposal, List.mem_singleton] at he
    subst he
    simpa [seedPattern_viab] using hp
  | cons hd tl ih =>
    obtain ⟨k, m⟩ := hd
    intro hacc e he
    by_cases hk : k = patternKey p
    · rw [insertProposal_cons_pos model p tl hk] at he
      rcases List.mem_cons.mp he with rfl | htl
      · rw [mergeInto_viab, pymax_eq_max]
        exact max_le (hacc (k, m) (List.mem_cons_self _ _)) hp
      · exact hacc _ (List.mem_cons_of_mem _ htl)
    · rw [insertProposal_cons_neg model p tl hk] at he
      rcases List.mem_cons.mp he with rfl | htl
      · exact hacc _ (List.mem_cons_self _ _)
      · exact ih (fun e' he' => hacc e' (List.mem_cons_of_mem _ he')) e htl

theorem insertProposal_exists_ge (model : String) (p : PatternProposal) :
    ∀ (acc : List (String × MergedPattern)), ∀ e ∈ acc,
      ∃ e' ∈ insertProposal model p acc,
        e'.1 = e.1 ∧ e.2.skill_viability ≤ e'.2.skill_viability := by
  intro acc
  induction acc with
  | nil => intro e he; exact absurd he (List.not_mem_nil e)
  | cons hd tl ih =>
    obtain ⟨k, m⟩ := hd
    intro e he
    by_cases hk : k = patternKey p
    · rw [insertProposal_cons_pos model p tl hk]
      rcases List.mem_cons.mp he with rfl | htl
      · refine ⟨(k, mergeInto m model p), List.mem_cons_self _ _, rfl, ?_⟩
        rw [mergeInto_viab, pymax_eq_max]
        exact le_max_left _ _
      · exact ⟨e, List.mem_cons_of_mem _ htl, rfl, le_refl _⟩
    · rw [insertProposal_cons_neg model p tl hk]
      rcases List.mem_cons.mp he with rfl | htl
      · exact ⟨(k, m), List.mem_cons_self _ _, rfl, le_refl _⟩
      · obtain ⟨e', he', hk', hle⟩ := ih e htl
        exact ⟨e', List.mem_cons_of_mem _ he', hk', hle⟩

theorem insertProposal_self_ge (model : String) (p : PatternProposal) :
    ∀ (acc : List (String × MergedPattern)),
      ∃ e ∈ insertProposal model p acc,
        e.1 = patternKey p ∧ p.skill_viability.getD 5 ≤ e.2.skill_viability := by
  intro acc
  induction acc with
  | nil =>
    refine ⟨(patternKey p, seedPattern model p), ?_, rfl, ?_⟩
    · simp [insertProposal]
    · rw [seedPattern_viab]
  | cons hd tl ih =>
    obtain ⟨k, m⟩ := hd
    by_cases hk : k = patternKey p
    · rw [insertProposal_cons_pos model p tl hk]
      refine ⟨(k, mergeInto m model p), List.mem_cons_self _ _, hk, ?_⟩
      rw [mergeInto_viab, pymax_eq_max]
      exact le_max_right _ _
    · rw [insertProposal_cons_neg model p tl hk]
      obtain ⟨e, he, hke, hle⟩ := ih
      exact ⟨e, List.mem_cons_of_mem _ he, hke, hle⟩

theorem insertProposal_keys_sub (model : String) (p : PatternProposal) :
    ∀ (acc : List (String × MergedPattern)), ∀ e ∈ insertProposal model p acc,
      e.1 = patternKey p ∨ e.1 ∈ acc.map Prod.fst := by
  intro acc
  induction acc with
  | nil =>
    intro e he
    simp only [insertProposal, List.mem_singleton] at he
    subst he
    exact Or.inl rfl
  | cons hd tl ih =>
    obtain ⟨k, m⟩ := hd
    intro e he
    by_cases hk : k = patternKey p
    · rw [insertProposal_cons_pos model p tl hk] at he
      rcases List.mem_cons.mp he with rfl | htl
      · exact Or.inr (by simp)
      · exact Or.inr
          (by rw [List.map_cons]
              exact List.mem_cons_of_mem _ (List.mem_map.mpr ⟨e, htl, rfl⟩))
    · rw [insertProposal_cons_neg model p tl hk] at he
      rcases List.mem_cons.mp he with rfl | htl
      · exact Or.inr (by simp)
      · rcases ih e htl with h | h
        · exact Or.inl h
        · exact Or.inr (by simp only [List.map_cons, List.mem_cons]; exact Or.inr h)

theorem insertProposal_keys_nodup (model : String) (p : PatternProposal) :
    ∀ (acc : List (String × MergedPattern)), (acc.map Prod.fst).Nodup →
      ((insertProposal model p acc).map Prod.fst).Nodup := by
  intro acc
  induction acc with
  | nil => intro _; simp [insertProposal]
  | cons hd tl ih =>
    obtain ⟨k, m⟩ := hd
    intro h
    rw [List.map_cons, List.nodup_cons] at h
    by_cases hk : k = patternKey p
    · rw [insertProposal_cons_pos model p tl hk]
      rw [List.map_cons, List.nodup_cons]
      exact h
    · rw [insertProposal_cons_neg model p tl hk]
      rw [List.map_cons, List.nodup_cons]
      refine ⟨?_, ih h.2⟩
      intro hmem
      obtain ⟨e, he, hke⟩ := List.mem_map.mp hmem
      subst hke
      rcases insertProposal_keys_sub model p tl e he with h' | h'
      · exact hk h'
      · exact h.1 h'

theorem mergeFold_ub {B : ℚ} :
    ∀ (cs : List (String × PatternProposal)) (acc : List (String × MergedPattern)),
      (∀ c ∈ cs, c.2.skill_viability.getD 5 ≤ B) →
      (∀ e ∈ acc, e.2.skill_viability ≤ B) →
      ∀ e ∈ cs.foldl mergeStep acc, e.2.skill_viability ≤ B := by
  intro cs
  induction cs with
  | nil => intro acc _ hacc e he; exact hacc e (by simpa using he)
  | cons c cs ih =>
    intro acc hcs hacc e he
    rw [List.foldl_cons] at he
    exact ih (mergeStep acc c)
      (fun c' hc' => hcs c' (List.mem_cons_of_mem _ hc'))
      (insertProposal_ub c.1 c.2 (hcs c (List.mem_cons_self _ _)) acc hacc) e he

theorem mergeFold_inv :
    ∀ (cs : List (String × PatternProposal)) (acc : List (String × MergedPattern)),
      (acc.map Prod.fst).Nodup →
      ((cs.foldl mergeStep acc).map Prod.fst).Nodup
      ∧ (∀ e ∈ acc, ∃ e' ∈ cs.foldl mergeStep acc,
          e'.1 = e.1 ∧ e.2.skill_viability ≤ e'.2.skill_viability)
      ∧ (∀ c ∈ cs, ∃ e ∈ cs.foldl mergeStep acc,
          e.1 = patternKey c.2 ∧ c.2.skill_viability.getD 5 ≤ e.2.skill_viability) := by
  intro cs
  induction cs with
  | nil =>
    intro acc h
    refine ⟨by simpa using h, fun e he => ⟨e, by simpa using he, rfl, le_refl _⟩, by simp⟩
  | cons c cs ih =>
    intro acc h
    have h' : ((mergeStep acc c).map Prod.fst).Nodup :=
      insertProposal_keys_nodup c.1 c.2 acc h
    obtain ⟨ihn, ihp, ihc⟩ := ih (mergeStep acc c) h'
    simp only [List.foldl_cons]
    refine ⟨ihn, ?_, ?_⟩
    · intro e he
      obtain ⟨e1, he1, hk1, hle1⟩ := insertProposal_exists_ge c.1 c.2 acc e he
      obtain ⟨e2, he2, hk2, hle2⟩ := ihp e1 he1
      exact ⟨e2, he2, hk2.trans hk1, hle1.trans hle2⟩
    · intro c' hc'
      rcases List.mem_cons.mp hc' with rfl | hcs
      · obtain ⟨e1, he1, hk1, hle1⟩ := insertProposal_self_ge c'.1 c'.2 acc
        obtain ⟨e2, he2, hk2, hle2⟩ := ihp e1 he1
        exact ⟨e2, he2, hk2.trans hk1, hle1.trans hle2⟩
      · exact ihc c' hcs

theorem keys_nodup_unique {R : List (String × MergedPattern)} (h : (R.map Prod.fst).Nodup)
    {e e' : String × MergedPattern} (he : e ∈ R) (he' : e' ∈ R) (hk : e.1 = e'.1) : e = e' :=
  List.inj_on_of_nodup_map h he he' hk

theorem boostPattern_bounds {m : MergedPattern} (h : m.skill_viability ≤ 10) :
    m.skill_viability ≤ (boostPattern m).skill_viability ∧
    (boostPattern m).skill_viability ≤ 10 := by
  rw [boostPattern_viab]
  simp only [pymin_eq_min]
  have k1 : m.skill_viability ≤ min 10 (m.skill_viability + 1/2) :=
    le_min h (by linarith)
  by_cases h3 : 3 ≤ m.models_identified.length
  · have h2 : 2 ≤ m.models_identified.length := by omega
    rw [if_pos h3, if_pos h2]
    refine ⟨le_min h ?_, min_le_left _ _⟩
    have h4 := min_le_right (10 : ℚ) (m.skill_viability + 1/2)
    linarith [k1]
  · rw [if_neg h3]
    by_cases h2 : 2 ≤ m.models_identified.length
    · rw [if_pos h2]
      exact ⟨k1, min_le_left _ _⟩
    · rw [if_neg h2]
      exact ⟨le_refl _, h⟩

theorem collectViable_aux (t : ℚ) :
    ∀ (ps : List MergedPattern) (acc : List MergedPattern) (p : MergedPattern),
      p ∈ ps.foldl (fun acc q => if q.skill_viability ≥ t then acc ++ [q] else acc) acc ↔
        p ∈ acc ∨ (p ∈ ps ∧ t ≤ p.skill_viability) := by
  intro ps
  induction ps with
  | nil => intro acc p; simp
  | cons q ps ih =>
    intro acc p
    rw [List.foldl_cons]
    by_cases hq : q.skill_viability ≥ t
    · rw [if_pos hq, ih]
      constructor
      · rintro (hp | ⟨hp, hc⟩)
        · rcases List.mem_append.mp hp with hp' | hp'
          · exact Or.inl hp'
          · rcases List.mem_singleton.mp hp' with rfl
            exact Or.inr ⟨List.mem_cons_self _ _, hq⟩
        · exact Or.inr ⟨List.mem_cons_of_mem _ hp, hc⟩
      · rintro (hp | ⟨hp, hc⟩)
        · exact Or.inl (List.mem_append.mpr (Or.inl hp))
        · rcases List.mem_cons.mp hp with rfl | hp'
          · exact Or.inl (List.mem_append.mpr (Or.inr (List.mem_singleton.mpr rfl)))
          · exact Or.inr ⟨hp', hc⟩
    · rw [if_neg hq, ih]
      constructor
      · rintro (hp | ⟨hp, hc⟩)
        · exact Or.inl hp
        · exact Or.inr ⟨List.mem_cons_of_mem _ hp, hc⟩
      · rintro (hp | ⟨hp, hc⟩)
        · exact Or.inl hp
        · rcases List.mem_cons.mp hp with rfl | hp'
          · exact absurd hc hq
          · exact Or.inr ⟨hp', hc⟩

theorem collectViable_mem (t : ℚ) (ps : List MergedPattern) (p : MergedPattern) :
    p ∈ collectViable t ps ↔ p ∈ ps ∧ t ≤ p.skill_viability := by
  rw [collectViable, collectViable_aux]
  simp

theorem filter_sum_of_zero_unused :
    ∀ (rows : List SkillRow), (∀ r ∈ rows, r.total_uses = 0 → r.success_rate = 0) →
      (((rows.filter (fun r => decide (1 ≤ r.total_uses))).map SkillRow.success_rate).sum) =
        ((rows.map SkillRow.success_rate).sum) := by
  intro rows
  induction rows with
  | nil => intro _; rfl
  | cons r rs ih =>
    intro hz
    by_cases hr : 1 ≤ r.total_uses
    · rw [List.filter_cons_of_pos (by simpa using hr), List.map_cons, List.map_cons,
        List.sum_cons, List.sum_cons, ih (fun x hx => hz x (List.mem_cons_of_mem _ hx))]
    · have h0 : r.total_uses = 0 := by omega
      rw [List.filter_cons_of_neg (by simpa using hr), List.map_cons, List.sum_cons,
        hz r (List.mem_cons_self _ _) h0, ih (fun x hx => hz x (List.mem_cons_of_mem _ hx))]
      ring

/-- C1: a pattern contributed by exactly one source gets no boost; by
exactly 2 sources, +0.5 (clamped at 10); by 3 or more sources, +1.0
total (clamped at 10).  On the literal two-source input where A reports
pattern "X" with viability 6.0 and B reports "X" with 6.5, the merged
viability before boosting is 6.5 and after the 2-source boost is 7.0. -/
theorem confidence_boost_by_source_count :
    (∀ m : MergedPattern,
      (m.models_identified.length = 1 →
        (boostPattern m).skill_viability = m.skill_viability) ∧
      (m.models_identified.length = 2 →
        (boostPattern m).skill_viability = min 10 (m.skill_viability + 1/2)) ∧
      (3 ≤ m.models_identified.length →
        (boostPattern m).skill_viability = min 10 (m.skill_viability + 1))) ∧
    (mergeAllPatterns twoSourceInput).map (fun e => (e.1, e.2.skill_viability)) =
      [("x", 13/2)] ∧
    (boostAll (mergeAllPatterns twoSourceInput)).map (fun e => (e.1, e.2.skill_viability)) =
      [("x", 7)] := by
  refine ⟨?_, by with_unfolding_all decide, by with_unfolding_all decide⟩
  intro m
  refine ⟨?_, ?_, ?_⟩
  · intro h
    rw [boostPattern_viab, h]
    norm_num
  · intro h
    rw [boostPattern_viab, h]
    simp only [pymin_eq_min]
    norm_num
  · intro h3
    have h2 : 2 ≤ m.models_identified.length := by omega
    rw [boostPattern_viab]
    simp only [pymin_eq_min]
    rw [if_pos h3, if_pos h2]
    rcases le_total (m.skill_viability + 1/2) 10 with hle | hge
    · rw [min_eq_right hle]
      have harith : m.skill_viability + 1/2 + 1/2 = m.skill_viability + 1 := by ring
      rw [harith]
    · rw [min_eq_left hge, min_eq_left (by norm_num : (10:ℚ) ≤ 10 + 1/2),
        min_eq_left (by linarith : (10:ℚ) ≤ m.skill_viability + 1)]

/-- Witness for C1: the concrete two-source merged record for "X" has
exactly 2 contributing models and receives the clamped +0.5 boost. -/
theorem confidence_boost_witness :
    mX2.models_identified.length = 2 ∧
    (boostPattern mX2).skill_viability = min 10 (mX2.skill_viability + 1/2) :=
  ⟨by with_unfolding_all decide,
   (confidence_boost_by_source_count.1 mX2).2.1 (by with_unfolding_all decide)⟩

/-- C2: for three sources proposing `p_auth` with viabilities 6, 7 and 8
and threshold 7.0, the merged viability before boosting is 8 (the max),
the post-boost viability is exactly 9 (8 + 1.0, clamp not reached), and
the pattern is in the viable set. -/
theorem three_source_merge_example :
    (mergeAllPatterns (collectParsed threeSourceInput)).map
      (fun e => (e.1, e.2.skill_viability)) = [("p_auth", 8)] ∧
    ∃ m, synthesizePatterns 7 threeSourceInput = some ([("p_auth", m)], [m]) ∧
      m.skill_viability = 9 := by
  refine ⟨by with_unfolding_all decide,
    ⟨"p_auth", "p_auth", "general", 1, 5, 9, [], ["claude", "gemini", "gpt"]⟩,
    by with_unfolding_all decide, by with_unfolding_all decide⟩

/-- C3: whenever every source-reported viability (with its default 5) is
at most 10, every post-merge post-boost pattern has viability at most 10
and at least every value reported for its key by any single source. -/
theorem merged_viability_bounds (analyses : List (String × Analysis))
    (hub : ∀ c ∈ contributions analyses, c.2.skill_viability.getD 5 ≤ 10) :
    ∀ e ∈ boostAll (mergeAllPatterns analyses),
      e.2.skill_viability ≤ 10 ∧
      ∀ c ∈ contributions analyses, patternKey c.2 = e.1 →
        c.2.skill_viability.getD 5 ≤ e.2.skill_viability := by
  intro e he
  simp only [boostAll] at he
  obtain ⟨e0, he0, heq⟩ := List.mem_map.mp he
  subst heq
  have he0' : e0 ∈ (contributions analyses).foldl mergeStep [] := by
    simpa [mergeAllPatterns, mergeContribs] using he0
  have hpre : e0.2.skill_viability ≤ 10 :=
    mergeFold_ub (contributions analyses) [] hub (by simp) e0 he0'
  have hb := boostPattern_bounds hpre
  refine ⟨hb.2, ?_⟩
  intro c hc hkey
  obtain ⟨nd, _, hlow⟩ := mergeFold_inv (contributions analyses) [] (by simp)
  obtain ⟨e1, he1, hk1, hle1⟩ := hlow c hc
  have he1e0 : e1 = e0 := keys_nodup_unique nd he1 he0' (hk1.trans hkey)
  rw [he1e0] at hle1
  exact hle1.trans hb.1

/-- Witness for C3: on the two-source input the boosted "X" record sits
between the strongest single-source report (6.5) and the cap 10. -/
theorem merged_viability_bounds_witness :
    mX2boosted.skill_viability ≤ 10 ∧ (13/2 : ℚ) ≤ mX2boosted.skill_viability := by
  have h := merged_viability_bounds twoSourceInput (by with_unfolding_all decide)
    ("x", mX2boosted) (by with_unfolding_all decide)
  exact ⟨h.1,
    h.2 ("B", { proposal0 with name := some "X", skill_viability := some (13/2) })
      (by with_unfolding_all decide) (by with_unfolding_all decide)⟩

/-- C4: the viability gate is a closed (inclusive) lower bound: a merged
pattern is in the viable set iff its post-boost viability is at least the
configured threshold; with threshold 7.0, a pattern at exactly 7 is kept
and one at 6.999 is dropped. -/
theorem viability_gate_inclusive :
    (∀ (t : ℚ) (parsed : List (String × Option Analysis))
        (merged : List (String × MergedPattern)) (viable : List MergedPattern),
      synthesizePatterns t parsed = some (merged, viable) →
      ∀ p : MergedPattern, p ∈ viable ↔ p ∈ merged.map Prod.snd ∧ p.skill_viability ≥ t) ∧
    collectViable 7 [gateAt7, gateBelow7] = [gateAt7] ∧
    gateAt7.skill_viability = 7 ∧ gateBelow7.skill_viability = 6999/1000 := by
  refine ⟨?_, by with_unfolding_all decide, by with_unfolding_all decide,
    by norm_num [gateBelow7, mkRat, Rat.normalize]⟩
  intro t parsed merged viable h p
  simp only [synthesizePatterns] at h
  split at h
  · simp at h
  · rw [Option.some.injEq, Prod.mk.injEq] at h
    obtain ⟨h1, h2⟩ := h
    subst h1
    subst h2
    exact collectViable_mem t _ p

/-- Witness for C4: the three-source run's viable set contains exactly
the boosted `p_auth` record, and membership matches the inclusive gate. -/
theorem viability_gate_witness :
    mAuth9 ∈ [mAuth9] ↔ mAuth9 ∈ [("p_auth", mAuth9)].map Prod.snd ∧
      mAuth9.skill_viability ≥ 7 :=
  viability_gate_inclusive.1 7 threeSourceInput [("p_auth", mAuth9)] [mAuth9]
    (by with_unfolding_all decide) mAuth9

/-- C5: the merge of `task_references` has set semantics: the merged
list has no duplicates, membership is the union of the two sides, the
union is idempotent and order-independent, and merging ["t1","t2"] with
["t2","t3"] yields exactly the set of "t1", "t2", "t3". -/
theorem task_references_set_semantics :
    (∀ a b : List String, (refUnion a b).Nodup) ∧
    (∀ (a b : List String) (x : String), x ∈ refUnion a b ↔ x ∈ a ∨ x ∈ b) ∧
    (∀ (a : List String) (x : String), x ∈ refUnion a a ↔ x ∈ a) ∧
    (∀ (a b : List String) (x : String), x ∈ refUnion a b ↔ x ∈ refUnion b a) ∧
    (∀ x : String, x ∈ refUnion ["t1", "t2"] ["t2", "t3"] ↔
      (x = "t1" ∨ x = "t2" ∨ x = "t3")) := by
  refine ⟨?_, ?_, ?_, ?_, ?_⟩
  · intro a b
    exact List.nodup_dedup _
  · intro a b x
    simp [refUnion, pyListSet, List.mem_dedup]
  · intro a x
    simp [refUnion, pyListSet, List.mem_dedup]
  · intro a b x
    simp only [refUnion, pyListSet, List.mem_dedup, List.mem_append]
    exact Or.comm
  · intro x
    simp [refUnion, pyListSet, List.mem_dedup]

/-- C6 counterexample: a proposal whose `pattern_id` field is present
but equal to the empty string does NOT use that field as its merge key;
Python truthiness makes it fall back to the normalized name. -/
theorem merge_key_counterexample :
    emptyIdProposal.pattern_id = some "" ∧
    patternKey emptyIdProposal = "my_pattern" ∧ "my_pattern" ≠ "" := by
  refine ⟨rfl, by with_unfolding_all decide, by decide⟩

/-- C6 amended: the merge key is the explicit `pattern_id` when that
field is present AND non-empty; otherwise (absent or empty string) it is
the name lowercased with spaces replaced by underscores; two proposals
merge into one record exactly when their keys coincide. -/
theorem merge_key_amended :
    (∀ (p : PatternProposal) (s : String),
      p.pattern_id = some s → s ≠ "" → patternKey p = s) ∧
    (∀ p : PatternProposal, p.pattern_id = none ∨ p.pattern_id = some "" →
      patternKey p = normalizeName (p.name.getD "")) ∧
    (∀ (m1 m2 : String) (p q : PatternProposal),
      (mergeContribs [(m1, p), (m2, q)]).length = 1 ↔ patternKey p = patternKey q) := by
  refine ⟨?_, ?_, ?_⟩
  · intro p s hs hne
    simp only [patternKey, hs]
    rw [if_neg hne]
  · intro p hp
    rcases hp with hp | hp
    · simp only [patternKey, hp]
    · simp [patternKey, hp]
  · intro m1 m2 p q
    by_cases h : patternKey p = patternKey q
    · simp [mergeContribs, mergeStep, insertProposal, h]
    · simp [mergeContribs, mergeStep, insertProposal, h]

/-- Witness for C6: a non-empty explicit id is kept; the empty-id
proposal falls back to its normalized name; identical keys merge into a
single record. -/
theorem merge_key_witness :
    patternKey { proposal0 with pattern_id := some "p_auth" } = "p_auth" ∧
    patternKey emptyIdProposal = normalizeName (emptyIdProposal.name.getD "") ∧
    ((mergeContribs [("A", { proposal0 with name := some "X" }),
        ("B", { proposal0 with name := some "X" })]).length = 1 ↔
      patternKey { proposal0 with name := some "X" } =
        patternKey { proposal0 with name := some "X" }) :=
  ⟨merge_key_amended.1 _ "p_auth" rfl (by decide),
   merge_key_amended.2.1 emptyIdProposal (Or.inr rfl),
   merge_key_amended.2.2 "A" "B" _ _⟩

/-- C7: a source whose document fails to parse is skipped and
contributes nothing (removing it from the input leaves the result
unchanged), and when no source parses the synthesis returns the empty
result instead of an error. -/
theorem parse_failure_skips_source :
    (∀ (t : ℚ) (xs ys : List (String × Option Analysis)) (m : String),
      synthesizePatterns t (xs ++ (m, none) :: ys) = synthesizePatterns t (xs ++ ys)) ∧
    (∀ (t : ℚ) (ps : List (String × Option Analysis)),
      (∀ e ∈ ps, e.2 = none) → synthesizePatterns t ps = none) := by
  constructor
  · intro t xs ys m
    have hcp : collectParsed (xs ++ (m, none) :: ys) = collectParsed (xs ++ ys) := by
      simp [collectParsed]
    simp only [synthesizePatterns, hcp]
  · intro t ps hps
    have hcp : collectParsed ps = [] := by
      rw [collectParsed, List.filterMap_eq_nil_iff]
      intro a ha
      rw [hps a ha]
      rfl
    simp [synthesizePatterns, hcp]

/-- Witness for C7: dropping an unparsable source from a concrete input
changes nothing, and an input whose only source is unparsable yields the
empty result. -/
theorem parse_failure_witness :
    synthesizePatterns 7 ([("claude", some analysisFromJson)] ++ ("gemini", none) :: []) =
      synthesizePatterns 7 ([("claude", some analysisFromJson)] ++ []) ∧
    synthesizePatterns 7 [("gemini", none)] = none :=
  ⟨parse_failure_skips_source.1 7 [("claude", some analysisFromJson)] [] "gemini",
   parse_failure_skips_source.2 7 [("gemini", none)] (by with_unfolding_all decide)⟩

/-- C8 counterexample: when both the `.json` and the `.md` response file
for a model exist and both parse, the loaded analysis is the MARKDOWN
one — the `.md` iteration runs after `.json` and overwrites it — so JSON
is not preferred. -/
theorem json_preference_counterexample :
    loadModelAnalysis ⟨some (some analysisFromJson), some (some analysisFromMd)⟩ =
      some analysisFromMd ∧
    analysisFromMd ≠ analysisFromJson := by
  refine ⟨rfl, by with_unfolding_all decide⟩

/-- C8 amended: a Markdown file that exists and parses always wins; the
JSON file's content is used only when the Markdown file is absent or
fails to parse. -/
theorem md_overwrites_json :
    (∀ (files : ResponseFiles) (b : Analysis),
      files.mdFile = some (some b) → loadModelAnalysis files = some b) ∧
    (∀ (files : ResponseFiles) (a : Analysis),
      files.jsonFile = some (some a) →
      files.mdFile = none ∨ files.mdFile = some none →
      loadModelAnalysis files = some a) := by
  constructor
  · intro files b hb
    obtain ⟨j, md⟩ := files
    cases hb
    rfl
  · intro files a ha hmd
    obtain ⟨j, md⟩ := files
    cases ha
    rcases hmd with hmd | hmd <;> cases hmd <;> rfl

/-- Witness for C8: concrete instances of both clauses of the amended
loading rule. -/
theorem md_overwrites_json_witness :
    loadModelAnalysis ⟨some (some analysisFromJson), some (some analysisFromMd)⟩ =
      some analysisFromMd ∧
    loadModelAnalysis ⟨some (some analysisFromJson), some none⟩ = some analysisFromJson :=
  ⟨md_overwrites_json.1 ⟨some (some analysisFromJson), some (some analysisFromMd)⟩
      analysisFromMd rfl,
   md_overwrites_json.2 ⟨some (some analysisFromJson), some none⟩ analysisFromJson rfl
      (Or.inr rfl)⟩

/-- C9 counterexample: with one skill of 10 uses and success rate 1 and
one skill of 0 uses, the reported average is 0.5 — the zero-use skill
enters the mean — while the mean over skills with at least one use would
be 1. -/
theorem avg_success_rate_counterexample :
    avg_success_rate [⟨10, 1, 0⟩, ⟨0, 0, 0⟩] = 1/2 ∧
    specAvgSuccessRate [⟨10, 1, 0⟩, ⟨0, 0, 0⟩] = 1 ∧ (1/2 : ℚ) ≠ 1 := by
  refine ⟨by with_unfolding_all decide, by with_unfolding_all decide,
    by with_unfolding_all decide⟩

/-- C9 amended: the reported average success rate divides by the number
of ALL skills; equivalently, when every zero-use skill carries success
rate 0, it equals the sum of the used skills' rates divided by the total
skill count (rounded to 3 decimals), not by the count of used skills. -/
theorem avg_success_rate_amended (rows : List SkillRow)
    (hz : ∀ r ∈ rows, r.total_uses = 0 → r.success_rate = 0) (hne : rows ≠ []) :
    avg_success_rate rows =
      pyRound3 ((((rows.filter (fun r => decide (1 ≤ r.total_uses))).map
        SkillRow.success_rate).sum) / (rows.length : ℚ)) := by
  have h0 : ¬ (rows.isEmpty = true) := by
    cases rows with
    | nil => exact absurd rfl hne
    | cons a l => simp
  rw [avg_success_rate, if_neg h0, filter_sum_of_zero_unused rows hz]

/-- Witness for C9: the amended formula evaluated on a single used
skill. -/
theorem avg_success_rate_amended_witness :
    avg_success_rate [(⟨10, 1, 0⟩ : SkillRow)] =
      pyRound3 (((([(⟨10, 1, 0⟩ : SkillRow)].filter
        (fun r => decide (1 ≤ r.total_uses))).map SkillRow.success_rate).sum) /
        (([(⟨10, 1, 0⟩ : SkillRow)].length : ℚ))) :=
  avg_success_rate_amended [⟨10, 1, 0⟩] (by with_unfolding_all decide) (by simp)

/-- C10: the result of the underperforming-skills query does not depend
on the `max_rating` argument: only the minimum-uses and
maximum-success-rate predicates are applied. -/
theorem underperforming_ignores_max_rating :
    ∀ (skill_data : List SkillRow) (min_uses : ℕ) (max_success_rate r1 r2 : ℚ),
      get_underperforming_skills skill_data min_uses max_success_rate r1 =
        get_underperforming_skills skill_data min_uses max_success_rate r2 := by
  intro skill_data min_uses max_success_rate r1 r2
  rfl
